import Mathlib

/-!
Verification of the HierarchyTransformers repository against its
natural-language specification.

The development shallowly embeds the relevant program parts:

* `hierarchy_transformers/evaluation/hit_eval.py` — the threshold/weight
  search evaluator (`HierarchyRetrainedEvaluator.evaluate`) and the
  triplet-mode result-matrix reassembly in `evaluate_dataloader`,
  embedded over exact rationals `ℚ`.
* `hypertrans/eval/reconstruct.py` — the reconstruction evaluator
  (hypernym ranks, average precision, mean rank / MAP), over `ℚ`,
  parameterised by the entity-distance function supplied by the external
  embedding table.
* `holm/loss.py` — the hyperbolic loss (`HyperbolicLoss`), over exact
  reals `ℝ`, with IEEE NaN-producing partiality modelled by `Option ℝ`.

Machine floats are modelled by exact numbers; NaN-producing operations
(division by zero, square root of a negative, `arccos`/`arcsin` outside
`[-1, 1]`, `artanh` outside `(-1, 1)`) are modelled as `Option`-valued,
`none` standing for NaN, which every arithmetic operation propagates.
-/

namespace HiT

/-! ### Score rows (hit_eval.py)

A row of the evaluator's `result_mat`:
`(label, distance(anchor, other), norm(anchor), norm(other))`. -/

structure Row where
  label : ℚ
  dist : ℚ
  anchorNorm : ℚ
  otherNorm : ℚ
deriving DecidableEq, Repr

/-- The label column `result_mat[:, 0]`. -/
def labelsOf (mat : List Row) : List ℚ := mat.map (fun r => r.label)

/-- Composite score of one row at centripetal weight `w`
(hit_eval.py lines 53 and 69):
`result_mat[:, 1] + w * (result_mat[:, 3] - result_mat[:, 2])`. -/
def compositeScore (r : Row) (w : ℚ) : ℚ :=
  r.dist + w * (r.otherNorm - r.anchorNorm)

/-- The whole composite-score column for weight `w`. -/
def compositeScores (mat : List Row) (w : ℚ) : List ℚ :=
  mat.map (fun r => compositeScore r w)

/-- Python `int(q)`: truncation toward zero. -/
def pyInt (q : ℚ) : ℤ := if 0 ≤ q then ⌊q⌋ else ⌈q⌉

/-- `tensor.min()` for a nonempty tensor; the `[]` case is unreachable in
`evaluate` (torch raises on an empty tensor, see `evaluate` below). -/
def qmin : List ℚ → ℚ
  | [] => 0
  | x :: xs => xs.foldl min x

/-- `tensor.max()` for a nonempty tensor (same remark as `qmin`). -/
def qmax : List ℚ → ℚ
  | [] => 0
  | x :: xs => xs.foldl max x

/-- Metrics dictionary returned by `threshold_evaluate`.  A `none` field
stands for the IEEE NaN that a 0/0 ratio produces. -/
structure ThreshResults where
  precision : Option ℚ
  recl : Option ℚ  -- the "recall" key ("recall" is a Lean command name)
  F1 : Option ℚ
  accuracy : Option ℚ
  threshold : ℚ
deriving DecidableEq, Repr

/-- Division of counts, `none` (NaN) when the denominator is zero. -/
def safeDiv (a b : ℕ) : Option ℚ := if b = 0 then none else some ((a : ℚ) / (b : ℚ))

/-- Modelled from the spec: the repository imports `threshold_evaluate`
from `hierarchy_transformers/evaluation/eval_functions.py`, a file that is
not present; per the spec, a score is classified as label 1 when
`score ≤ threshold`, and precision / recall / F1 / accuracy are computed
at that threshold, the result dictionary also carrying the threshold
itself (read back by `__call__` as `scores["threshold"]`).  Undefined
ratios (zero denominators) are NaN (`none`) as in float arithmetic. -/
def thresholdEvaluate (scores labels : List ℚ) (t : ℚ) : ThreshResults :=
  let pairs := scores.zip labels
  let tp := (pairs.filter (fun p => decide (p.1 ≤ t) && decide (p.2 = 1))).length
  let fp := (pairs.filter (fun p => decide (p.1 ≤ t) && !(decide (p.2 = 1)))).length
  let fnCnt := (pairs.filter (fun p => !(decide (p.1 ≤ t)) && decide (p.2 = 1))).length
  let tn := (pairs.filter (fun p => !(decide (p.1 ≤ t)) && !(decide (p.2 = 1)))).length
  let prec := safeDiv tp (tp + fp)
  let rec_ := safeDiv tp (tp + fnCnt)
  let f1 :=
    match prec, rec_ with
    | some p, some r => if p + r = 0 then none else some (2 * p * r / (p + r))
    | _, _ => none
  { precision := prec, recl := rec_, F1 := f1,
    accuracy := safeDiv (tp + tn) pairs.length, threshold := t }

/-- One entry of the evaluator's result: the selected centripetal weight
together with the classification metrics (`best_results` in the code). -/
structure EvalResult where
  weight : ℚ
  metrics : ThreshResults
deriving DecidableEq, Repr

/-- The thresholds scanned for weight `w` in search mode
(hit_eval.py lines 71–74): `range(int(min*g), int(max*g))`, each divided
by the granularity `g`.  Note Python `range` excludes its upper end. -/
def thresholdsFor (mat : List Row) (g : ℤ) (w : ℚ) : List ℚ :=
  let scores := compositeScores mat w
  let s := pyInt (qmin scores * (g : ℚ))
  let e := pyInt (qmax scores * (g : ℚ))
  (List.range (e - s).toNat).map (fun (i : ℕ) => ((s + (i : ℤ) : ℤ) : ℚ) / (g : ℚ))

/-- The candidates produced while scanning weight `w`: each scanned
threshold paired with its metrics, in scan order. -/
def candidatesFor (mat : List Row) (g : ℤ) (w : ℚ) : List EvalResult :=
  (thresholdsFor mat g w).map
    (fun t => ⟨w, thresholdEvaluate (compositeScores mat w) (labelsOf mat) t⟩)

/-- Mutable state of the search loop: `best_f1`, `best_results`,
`is_updated`. -/
structure SState where
  bestF1 : ℚ
  best : Option EvalResult
  isUpdated : Bool
deriving DecidableEq, Repr

/-- One iteration of the inner threshold loop (hit_eval.py lines 75–80):
update the best candidate when `results["F1"] > best_f1`; a NaN F1
compares false. -/
def scanStep (st : SState) (c : EvalResult) : SState :=
  match c.metrics.F1 with
  | some v => if st.bestF1 < v then ⟨v, some c, true⟩ else st
  | none => st

/-- The whole threshold scan for one weight, starting with
`is_updated = False` (hit_eval.py line 66). -/
def scanWeight (mat : List Row) (g : ℤ) (st : SState) (w : ℚ) : SState :=
  (candidatesFor mat g w).foldl scanStep ⟨st.bestF1, st.best, false⟩

/-- The outer weight loop (hit_eval.py lines 62–80): early `break` at the
top of an iteration when the previous weight updated nothing. -/
def searchLoop (mat : List Row) (g : ℤ) : List ℚ → SState → SState
  | [], st => st
  | w :: ws, st =>
    if st.isUpdated then searchLoop mat g ws (scanWeight mat g st w) else st

/-- The weights scanned: `float(i + 1)` for `i in range(10)`. -/
def weightList : List ℚ := (List.range 10).map (fun i => (i : ℚ) + 1)

/-- Python truthiness of an optional float argument: `None` and `0.0` are
falsy. -/
def truthy : Option ℚ → Bool
  | none => false
  | some q => decide (q ≠ 0)

/-- `HierarchyRetrainedEvaluator.evaluate` (hit_eval.py lines 42–82).

`bestW`/`bestT` are `best_val_centri_score_weight`/`best_val_threshold`
(`none` = Python `None`).  The guard is the source's
`if best_val_threshold and best_val_centri_score_weight:` — Python
truthiness, so a supplied `0.0` falls through to the grid search.

In search mode on an empty matrix, `scores.min()` raises (torch refuses
the min of an empty tensor); this is the `Except.error` case.   The torch
raise happens inside the first weight iteration, which is always reached
(`is_updated` starts `True`), so raising before the loop is equivalent. -/
def evaluate (mat : List Row) (g : ℤ) (bestW bestT : Option ℚ) :
    Except String (Option EvalResult) :=
  if truthy bestT && truthy bestW then
    .ok (some ⟨bestW.getD 0,
      thresholdEvaluate (compositeScores mat (bestW.getD 0)) (labelsOf mat)
        (bestT.getD 0)⟩)
  else if mat = [] then
    .error "min(): cannot compute the min of an empty tensor"
  else
    .ok (searchLoop mat g weightList ⟨-1, none, true⟩).best

/-! ### Specification-side description of the search (for comparison)

The spec describes the search declaratively: weights `1..10` are tried in
increasing order; a weight whose whole threshold scan does not improve
the best F1 seen so far stops the search; among candidates of equal best
F1 the first found (lowest weight, then lowest threshold — the scan
order) is kept.  `specSearch` renders those words directly: per weight it
takes the maximum F1 of the weight's candidate list and, when that
strictly improves the running best, keeps the first candidate attaining
it; otherwise it stops. -/

/-- Best F1 value among a candidate list, starting from `b`; `none`
(NaN) F1 values never count. -/
def candMax (cs : List EvalResult) (b : ℚ) : ℚ :=
  cs.foldl (fun m c => match c.metrics.F1 with | some v => max m v | none => m) b

/-- The search as the spec words it (see section comment). -/
def specSearch (mat : List Row) (g : ℤ) :
    List ℚ → ℚ → Option EvalResult → Option EvalResult
  | [], _, acc => acc
  | w :: ws, b, acc =>
    let cs := candidatesFor mat g w
    let m := candMax cs b
    if b < m then
      specSearch mat g ws m (cs.find? (fun c => c.metrics.F1 = some m))
    else acc

/-- The spec's weight grid, literally: the integers 1..10 in increasing
order. -/
def specWeightList : List ℚ := [1, 2, 3, 4, 5, 6, 7, 8, 9, 10]

/-! ### Triplet-mode reassembly (hit_eval.py lines 161–169)

In triplet mode, `evaluate_dataloader` rebuilds the score matrix in
evaluation order: it keeps every 10th positive-labelled row (the dataset
repeats each positive once per triplet, i.e. once per negative) and
attaches to each kept positive the ten consecutive negative rows
`negative_mat[10*i : 10*(i+1)]`. -/

/-- Python `l[::10]`: every 10th element. -/
def stride10 (l : List Row) : List Row :=
  (List.range ((l.length + 9) / 10)).filterMap (fun i => l[10 * i]?)

/-- Default row for (always in-range) positional indexing. -/
def row0 : Row := ⟨0, 0, 0, 0⟩

/-- The reassembly loop: for `i in range(len(positive_mat))`, append
`positive_mat[i]` and `negative_mat[10*i : 10*(i+1)]`, then concatenate
(hit_eval.py lines 163–169). -/
def reinterleave (mat : List Row) : List Row :=
  let positiveMat := stride10 (mat.filter (fun r => decide (r.label = 1)))
  let negativeMat := mat.filter (fun r => decide (r.label = 0))
  (List.range positiveMat.length).flatMap
    (fun i => positiveMat.getD i row0 :: ((negativeMat.drop (10 * i)).take 10))

/-- Structural form of the same reassembly, used to reason about it:
take one positive, give it the next ten negatives, recurse. -/
def assemble : List Row → List Row → List Row
  | [], _ => []
  | p :: ps, neg => (p :: neg.take 10) ++ assemble ps (neg.drop 10)

/-! ### Reconstruction evaluator (hypertrans/eval/reconstruct.py)

The evaluator consumes a hierarchy graph (`entities`,
`get_hypernyms`) and the distances provided by the external embedding
table (`self.embedding_dict.distances`).  The distance function is a
parameter `distf`; every use below only compares distances, in keeping
with the code (ranks are counts of strict comparisons). -/

/-- The hierarchy graph interface used by `ReconstructionEvaluator`.
Entity names are opaque keys compared only for identity; they are
modelled by natural-number identifiers. -/
structure HypGraph where
  entities : List ℕ
  hypernyms : ℕ → List ℕ

/-- `ReconstructionEvaluator.get_hypernym_ranks` (reconstruct.py lines
67–81): for each true hypernym `h`, rank `h` as one plus the number of
entities of `set(entities) - hypernyms` (the entity itself is a member
of that set) strictly closer to the entity than `h`.  Entities without
hypernyms give the empty dict. -/
def getHypernymRanks (G : HypGraph) (distf : ℕ → ℕ → ℚ)
    (e : ℕ) : List (ℕ × ℕ) :=
  let hs := G.hypernyms e
  if hs = [] then []
  else
    let rest := G.entities.filter (fun x => decide (x ∉ hs))
    hs.map (fun h => (h, (rest.filter (fun x => decide (distf e x < distf e h))).length + 1))

/-- Ascending insertion into a sorted list (model of `np.sort`,
ascending and stable). -/
def insertAsc (x : ℕ) : List ℕ → List ℕ
  | [] => [x]
  | y :: ys => if x ≤ y then x :: y :: ys else y :: insertAsc x ys

/-- `np.sort` (ascending). -/
def sortAsc (l : List ℕ) : List ℕ := l.foldr insertAsc []

/-- `ReconstructionEvaluator.get_hypernym_average_precision`
(reconstruct.py lines 83–99), returning `(average_precision, ranks)` or
`None` when the entity has no hypernyms:
`map_ranks = np.sort(ranks) + np.arange(len(ranks))` and
`avg_precision = (np.arange(1, n+1) / np.sort(map_ranks)).mean()`. -/
def getHypernymAveragePrecision (G : HypGraph)
    (distf : ℕ → ℕ → ℚ) (e : ℕ) : Option (ℚ × List ℕ) :=
  let ranks := (getHypernymRanks G distf e).map (fun p => p.2)
  if ranks = [] then none
  else
    let n := ranks.length
    let mapRanks := List.zipWith (fun r i => r + i) (sortAsc ranks) (List.range n)
    let terms := List.zipWith (fun i r => ((i : ℚ) + 1) / (r : ℚ))
      (List.range n) (sortAsc mapRanks)
    some (terms.sum / (n : ℚ), ranks)

/-- `ReconstructionEvaluator.evaluate_hypernym_mean_rank_and_AP`
(reconstruct.py lines 49–65) without subsampling (`max_eval_nums =
None`): accumulate ranks and average precisions over all entities,
skipping entities without hypernyms; means of empty collections are NaN
(`none`), as `np.mean([])` is. -/
def evaluateHypernymMeanRankAndAP (G : HypGraph)
    (distf : ℕ → ℕ → ℚ) : Option ℚ × Option ℚ :=
  let results := G.entities.filterMap (fun e => getHypernymAveragePrecision G distf e)
  let allRanks := results.flatMap (fun p => p.2)
  let allAPs := results.map (fun p => p.1)
  (if allRanks = [] then none
   else some ((allRanks.map (fun r => (r : ℚ))).sum / (allRanks.length : ℚ)),
   if allAPs = [] then none else some (allAPs.sum / (allAPs.length : ℚ)))

/-! Concrete 3-entity chain `a→b→c` for the reconstruction claims: `c`
is the parent of `b`, `b` the single known hypernym of `a`.  The
one-dimensional embeddings sit at increasing Euclidean norms
`a = 4/5 > b = 1/2 > c = 1/5`.  The gensim embedding table returns the
Poincaré distance `arcosh(1 + 2‖x-y‖² / ((1-‖x‖²)(1-‖y‖²)))`; since
`arcosh` is strictly increasing on its domain `[1, ∞)` and the
reconstruction evaluator only ever compares distances, the chain is
modelled by the rational `arcosh` argument itself (`chainDist`), which
orders entity pairs exactly as the true distances do (`arcosh 1 = 0`
for an entity and itself). -/

/-- The chain graph (`a`, `b`, `c` are the keys 0, 1, 2):
`hypernyms(a) = {b}`, `hypernyms(b) = {c}`, the root `c` has none. -/
def chainGraph : HypGraph :=
  ⟨[0, 1, 2], fun e => if e = 0 then [1] else if e = 1 then [2] else []⟩

/-- The 1-dimensional embedding coordinates of the chain. -/
def chainEmb (e : ℕ) : ℚ :=
  if e = 0 then 4/5 else if e = 1 then 1/2 else if e = 2 then 1/5 else 0

/-- Strictly-monotone image of the Poincaré distance between two chain
entities (the `arcosh` argument; see the section comment). -/
def chainDist (x y : ℕ) : ℚ :=
  1 + 2 * (chainEmb x - chainEmb y) ^ 2
    / ((1 - chainEmb x ^ 2) * (1 - chainEmb y ^ 2))

/-- Concrete triplet-mode result matrix with the wrong multiplicity of
negatives: two distinct positives (distances 100 and 200) each repeated
5 times (instead of 10), followed by their 10 negatives (distances
1..10, the last five belonging to the second positive). -/
def c7mat : List Row :=
  [⟨1, 100, 0, 0⟩, ⟨1, 100, 0, 0⟩, ⟨1, 100, 0, 0⟩, ⟨1, 100, 0, 0⟩, ⟨1, 100, 0, 0⟩,
   ⟨1, 200, 0, 0⟩, ⟨1, 200, 0, 0⟩, ⟨1, 200, 0, 0⟩, ⟨1, 200, 0, 0⟩, ⟨1, 200, 0, 0⟩,
   ⟨0, 1, 0, 0⟩, ⟨0, 2, 0, 0⟩, ⟨0, 3, 0, 0⟩, ⟨0, 4, 0, 0⟩, ⟨0, 5, 0, 0⟩,
   ⟨0, 6, 0, 0⟩, ⟨0, 7, 0, 0⟩, ⟨0, 8, 0, 0⟩, ⟨0, 9, 0, 0⟩, ⟨0, 10, 0, 0⟩]

/-! ### Hyperbolic loss (holm/loss.py)

The geometry is over exact reals.  A float value is `Flt := Option ℝ`
with `none` for NaN; embedding vectors themselves are plain real vectors
(the inputs of `forward` are finite).  The manifold operations are those
of geoopt's `PoincareBall` with curvature `c`:
`dist(x, y) = (2/√c)·artanh(√c·‖(-x) ⊕ y‖)` with `⊕` the Möbius
addition.  A mathematically undefined value (zero denominator, function
argument outside its domain) is `none`; torch's float evaluation places
NaN at the same spots (geoopt additionally clamps the Möbius denominator
away from zero with a `1e-15` epsilon; that denominator is nonzero in
every case analysed here). -/

/-- A float value: `none` is NaN. -/
def Flt : Type := Option ℝ

/-- An embedding vector. -/
def Vec : Type := List ℝ

noncomputable section

namespace FltOp

/-- Lift a real. -/
def lit (x : ℝ) : Flt := some x

/-- NaN-propagating addition. -/
def fadd : Flt → Flt → Flt
  | some a, some b => some (a + b)
  | _, _ => none

/-- NaN-propagating subtraction. -/
def fsub : Flt → Flt → Flt
  | some a, some b => some (a - b)
  | _, _ => none

/-- NaN-propagating multiplication (as in IEEE, `0 × NaN = NaN`). -/
def fmul : Flt → Flt → Flt
  | some a, some b => some (a * b)
  | _, _ => none

/-- Division; a zero denominator is undefined (`0/0` is IEEE NaN; a
nonzero numerator would give ±inf, which never occurs in the cases
analysed here). -/
def fdiv : Flt → Flt → Flt
  | some a, some b => if b = 0 then none else some (a / b)
  | _, _ => none

/-- `torch.relu`. -/
def frelu : Flt → Flt
  | some a => some (max 0 a)
  | none => none

/-- `x.pow(2)`. -/
def fsq : Flt → Flt
  | some a => some (a ^ 2)
  | none => none

/-- `torch.sqrt`: NaN on negative arguments. -/
def fsqrt : Flt → Flt
  | some a => if 0 ≤ a then some (Real.sqrt a) else none
  | none => none

/-- `torch.arccos`: NaN outside `[-1, 1]`. -/
def farccos : Flt → Flt
  | some a => if -1 ≤ a ∧ a ≤ 1 then some (Real.arccos a) else none
  | none => none

/-- `torch.arcsin`: NaN outside `[-1, 1]`. -/
def farcsin : Flt → Flt
  | some a => if -1 ≤ a ∧ a ≤ 1 then some (Real.arcsin a) else none
  | none => none

/-- Inverse hyperbolic tangent, `artanh x = log((1+x)/(1-x)) / 2`. -/
def artanh (x : ℝ) : ℝ := Real.log ((1 + x) / (1 - x)) / 2

/-- `torch.artanh`: NaN outside `(-1, 1)` (±1 gives ±inf, never hit
here). -/
def fartanh : Flt → Flt
  | some a => if -1 < a ∧ a < 1 then some (artanh a) else none
  | none => none

/-- Sum of a list of float values (`tensor.sum()`). -/
def fsum (l : List Flt) : Flt := l.foldl fadd (some 0)

end FltOp

open FltOp

/-- Euclidean dot product. -/
def dot (x y : Vec) : ℝ := (List.zipWith (fun a b => a * b) x y).sum

/-- Squared Euclidean norm. -/
def sqnorm (x : Vec) : ℝ := dot x x

/-- Euclidean norm (`tensor.norm(dim=-1)`). -/
def vnorm (x : Vec) : ℝ := Real.sqrt (sqnorm x)

/-- Coordinatewise difference. -/
def vsub (x y : Vec) : Vec := List.zipWith (fun a b => a - b) x y

/-- Negation. -/
def vneg (x : Vec) : Vec := x.map (fun a => -a)

/-- Scalar multiple. -/
def smul (t : ℝ) (x : Vec) : Vec := x.map (fun a => t * a)

/-- Coordinatewise sum. -/
def vadd (x y : Vec) : Vec := List.zipWith (fun a b => a + b) x y

/-- The all-zeros vector `manifold.origin(shape)`. -/
def zeros (n : ℕ) : Vec := List.replicate n 0

/-- geoopt Möbius addition on the ball of curvature `c`:
`((1 + 2c⟨x,y⟩ + c‖y‖²)·x + (1 − c‖x‖²)·y) / (1 + 2c⟨x,y⟩ + c²‖x‖²‖y‖²)`,
undefined at a vanishing denominator. -/
def mobiusAdd (c : ℝ) (x y : Vec) : Option Vec :=
  let den := 1 + 2 * c * dot x y + c ^ 2 * sqnorm x * sqnorm y
  if den = 0 then none
  else some (vadd (smul ((1 + 2 * c * dot x y + c * sqnorm y) / den) x)
                  (smul ((1 - c * sqnorm x) / den) y))

/-- geoopt `PoincareBall.dist`:
`2/√c · artanh(√c · ‖(-x) ⊕ y‖)` (the loss module's
`distance_metric`). -/
def pdist (c : ℝ) (x y : Vec) : Flt :=
  match mobiusAdd c (vneg x) y with
  | none => none
  | some w => fmul (lit (2 / Real.sqrt c)) (fartanh (lit (Real.sqrt c * vnorm w)))

/-- `HyperbolicLoss.half_cone_aperture` (loss.py lines 54–60):
`arcsin(min_norm · (1 − ‖tip‖²) / ‖tip‖)` with `‖tip‖` clamped to
`min_norm = 0.1` from below. -/
def halfConeAperture (coneTip : Vec) : Flt :=
  let normTip := max (vnorm coneTip) (1 / 10)
  farcsin (lit ((1 / 10) * (1 - normTip ^ 2) / normTip))

/-- Numerator of the `cone_angle_at_u` ratio (loss.py line 71):
`⟨tip,u⟩·(1 + ‖tip‖²) − ‖tip‖²·(1 + ‖u‖²)`. -/
def coneNumerator (coneTip u : Vec) : ℝ :=
  dot coneTip u * (1 + vnorm coneTip ^ 2) - vnorm coneTip ^ 2 * (1 + vnorm u ^ 2)

/-- Argument of the square root in the `cone_angle_at_u` denominator
(loss.py line 72): `1 + ‖u‖²·‖tip‖² − 2⟨tip,u⟩`. -/
def coneSqrtArg (coneTip u : Vec) : ℝ :=
  1 + vnorm u ^ 2 * vnorm coneTip ^ 2 - 2 * dot coneTip u

/-- `HyperbolicLoss.cone_angle_at_u` (loss.py lines 62–73): the ratio
`numerator / (‖tip‖·‖tip−u‖·√(coneSqrtArg))` is passed to `arccos`
directly — the source applies no clamp to it. -/
def coneAngleAtU (coneTip u : Vec) : Flt :=
  farccos (fdiv (lit (coneNumerator coneTip u))
    (fmul (lit (vnorm coneTip * vnorm (vsub coneTip u)))
          (fsqrt (lit (coneSqrtArg coneTip u)))))

/-- `HyperbolicLoss.energy` (loss.py lines 75–77):
`relu(cone_angle_at_u(tip, u) − half_cone_aperture(tip))`. -/
def energy (coneTip u : Vec) : Flt :=
  frelu (fsub (coneAngleAtU coneTip u) (halfConeAperture coneTip))

/-- The three term weights of `HyperbolicLoss.loss_weights`. -/
structure LossWeights where
  cluster : ℝ
  centri : ℝ
  cone : ℝ

/-- `HyperbolicLoss.forward` (loss.py lines 83–122) on a batch given by
the embedded anchor/other representations and the float labels.
Per-element tensors are lists; `.mean()` is sum over length, and the
centripetal reduction is `sum / labels.float().sum()`. -/
def hyperbolicForward (c : ℝ) (W : LossWeights)
    (repAnchor repOther : List Vec) (labels : List ℝ) : Flt :=
  let pairs := repAnchor.zip repOther
  let clusterTerms := List.zipWith
    (fun l p =>
      let d := pdist c p.1 p.2
      fmul (lit (1 / 2))
        (fadd (fmul (lit l) (fsq d))
              (fmul (lit (1 - l)) (fsq (frelu (fsub (lit 5) d))))))
    labels pairs
  let clusterLoss := fdiv (fsum clusterTerms) (lit (clusterTerms.length : ℝ))
  let centriTerms := List.zipWith
    (fun l p =>
      fmul (lit l)
        (frelu (fadd (lit (1 / 2))
          (fsub (pdist c p.2 (zeros p.2.length)) (pdist c p.1 (zeros p.1.length))))))
    labels pairs
  let centriLoss := fdiv (fsum centriTerms) (lit labels.sum)
  let coneTerms := List.zipWith
    (fun l p =>
      fadd (fmul (lit l) (fsq (energy p.2 p.1)))
           (fmul (lit (1 - l)) (fsq (frelu (fsub (lit (1 / 10)) (energy p.2 p.1))))))
    labels pairs
  let coneLoss := fdiv (fsum coneTerms) (lit (coneTerms.length : ℝ))
  fadd (fadd (fmul (lit W.cluster) clusterLoss) (fmul (lit W.centri) centriLoss))
       (fmul (lit W.cone) coneLoss)

end

/-! ## Theorems -/

/-- Claim C3: for every score-matrix row and every weight, the composite
score equals `distance + weight × (norm(other) − norm(anchor))`; for the
rows `[(1, 0.5, 0.9, 0.3), (0, 3.0, 0.9, 0.9)]` with weight 1 the
composite scores are exactly `[-0.1, 3.0]`. -/
theorem C3_composite_score_formula :
    (∀ (mat : List Row) (w : ℚ) (i : ℕ), i < mat.length →
      (compositeScores mat w).getD i 0 =
        (mat.getD i row0).dist +
          w * ((mat.getD i row0).otherNorm - (mat.getD i row0).anchorNorm)) ∧
    compositeScores [⟨1, 1/2, 9/10, 3/10⟩, ⟨0, 3, 9/10, 9/10⟩] 1 = [-(1/10), 3] := by
  constructor
  · intro mat w i h
    induction mat generalizing i with
    | nil => simp at h
    | cons r rs ih =>
      cases i with
      | zero => simp [compositeScores, compositeScore]
      | succ j => simpa [compositeScores] using ih j (by simpa using h)
  · norm_num [compositeScores, compositeScore]

/-- Witness for C3 at a concrete index. -/
theorem C3_composite_score_formula_witness :
    (0 : ℕ) < ([⟨1, 1/2, 9/10, 3/10⟩] : List Row).length ∧
    (compositeScores [⟨1, 1/2, 9/10, 3/10⟩] 1).getD 0 0 =
      (([⟨1, 1/2, 9/10, 3/10⟩] : List Row).getD 0 row0).dist +
        1 * ((([⟨1, 1/2, 9/10, 3/10⟩] : List Row).getD 0 row0).otherNorm -
          (([⟨1, 1/2, 9/10, 3/10⟩] : List Row).getD 0 row0).anchorNorm) :=
  ⟨by decide, C3_composite_score_formula.1 [⟨1, 1/2, 9/10, 3/10⟩] 1 0 (by decide)⟩

/-- Counterexample to claim C1: with the score matrix
`[(1,1,0,0), (0,2,0,0)]` and the supplied pair (weight 1, threshold 0),
`evaluate` re-runs the whole grid search — the Python truthiness guard
`if best_val_threshold and best_val_centri_score_weight` treats `0.0` as
unsupplied — and returns the searched threshold 1 with its metrics,
which differ from the metrics computed directly at the supplied pair. -/
theorem C1_counterexample :
    evaluate [⟨1, 1, 0, 0⟩, ⟨0, 2, 0, 0⟩] 1 (some 1) (some 0) =
      .ok (some ⟨1, ⟨some 1, some 1, some 1, some 1, 1⟩⟩) ∧
    evaluate [⟨1, 1, 0, 0⟩, ⟨0, 2, 0, 0⟩] 1 (some 1) (some 0) ≠
      .ok (some ⟨1, thresholdEvaluate
        (compositeScores [⟨1, 1, 0, 0⟩, ⟨0, 2, 0, 0⟩] 1)
        (labelsOf [⟨1, 1, 0, 0⟩, ⟨0, 2, 0, 0⟩]) 0⟩) := by
  have hm : ([⟨1, 1, 0, 0⟩, ⟨0, 2, 0, 0⟩] : List Row) ≠ [] := by simp
  have hlab : labelsOf [⟨1, 1, 0, 0⟩, ⟨0, 2, 0, 0⟩] = [1, 0] := by
    norm_num [labelsOf]
  have hs1 : compositeScores [⟨1, 1, 0, 0⟩, ⟨0, 2, 0, 0⟩] 1 = [1, 2] := by
    norm_num [compositeScores, compositeScore]
  have hs2 : compositeScores [⟨1, 1, 0, 0⟩, ⟨0, 2, 0, 0⟩] 2 = [1, 2] := by
    norm_num [compositeScores, compositeScore]
  have hth1 : thresholdsFor [⟨1, 1, 0, 0⟩, ⟨0, 2, 0, 0⟩] 1 1 = [1] := by
    rw [thresholdsFor, hs1]
    norm_num [qmin, qmax, pyInt, List.range_succ]
  have hth2 : thresholdsFor [⟨1, 1, 0, 0⟩, ⟨0, 2, 0, 0⟩] 1 2 = [1] := by
    rw [thresholdsFor, hs2]
    norm_num [qmin, qmax, pyInt, List.range_succ]
  have hte : thresholdEvaluate [1, 2] [1, 0] 1 = ⟨some 1, some 1, some 1, some 1, 1⟩ := by
    norm_num [thresholdEvaluate, safeDiv]
  have hc1 : candidatesFor [⟨1, 1, 0, 0⟩, ⟨0, 2, 0, 0⟩] 1 1 =
      [⟨1, ⟨some 1, some 1, some 1, some 1, 1⟩⟩] := by
    rw [candidatesFor, hth1, hs1, hlab]
    simp [hte]
  have hc2 : candidatesFor [⟨1, 1, 0, 0⟩, ⟨0, 2, 0, 0⟩] 1 2 =
      [⟨2, ⟨some 1, some 1, some 1, some 1, 1⟩⟩] := by
    rw [candidatesFor, hth2, hs2, hlab]
    simp [hte]
  have w1 : scanWeight [⟨1, 1, 0, 0⟩, ⟨0, 2, 0, 0⟩] 1 ⟨-1, none, true⟩ 1 =
      ⟨1, some ⟨1, ⟨some 1, some 1, some 1, some 1, 1⟩⟩, true⟩ := by
    rw [scanWeight, hc1]
    norm_num [scanStep]
  have w2 : scanWeight [⟨1, 1, 0, 0⟩, ⟨0, 2, 0, 0⟩] 1
      ⟨1, some ⟨1, ⟨some 1, some 1, some 1, some 1, 1⟩⟩, true⟩ 2 =
      ⟨1, some ⟨1, ⟨some 1, some 1, some 1, some 1, 1⟩⟩, false⟩ := by
    rw [scanWeight, hc2]
    norm_num [scanStep]
  have hsearch : evaluate [⟨1, 1, 0, 0⟩, ⟨0, 2, 0, 0⟩] 1 (some 1) (some 0) =
      .ok (some ⟨1, ⟨some 1, some 1, some 1, some 1, 1⟩⟩) := by
    rw [evaluate]
    rw [show (truthy (some 0) && truthy (some 1)) = false by norm_num [truthy]]
    rw [show weightList = [1, 2, 3, 4, 5, 6, 7, 8, 9, 10] by
      norm_num [weightList, List.range_succ]]
    simp only [Bool.false_eq_true, if_false, if_neg hm]
    simp [searchLoop, w1, w2]
  have happly : thresholdEvaluate (compositeScores [⟨1, 1, 0, 0⟩, ⟨0, 2, 0, 0⟩] 1)
      (labelsOf [⟨1, 1, 0, 0⟩, ⟨0, 2, 0, 0⟩]) 0 =
      ⟨none, some 0, none, some (1/2), 0⟩ := by
    rw [hs1, hlab]
    norm_num [thresholdEvaluate, safeDiv]
  refine ⟨hsearch, ?_⟩
  rw [hsearch, happly]
  simp

/-- Claim C1 as amended: apply mode is entered exactly when both
supplied hyperparameters are truthy (nonzero); for every matrix and
every supplied nonzero weight and nonzero threshold, `evaluate` computes
the metrics directly at them and never runs the search. -/
theorem C1_apply_mode (mat : List Row) (g : ℤ) (w t : ℚ)
    (hw : w ≠ 0) (ht : t ≠ 0) :
    evaluate mat g (some w) (some t) =
      .ok (some ⟨w, thresholdEvaluate (compositeScores mat w) (labelsOf mat) t⟩) := by
  simp [evaluate, truthy, hw, ht]

/-- Witness for C1 as amended. -/
theorem C1_apply_mode_witness :
    (3 : ℚ) ≠ 0 ∧ (2 : ℚ) ≠ 0 ∧
    evaluate [⟨0, 1, 0, 0⟩] 100 (some 3) (some 2) =
      .ok (some ⟨3, thresholdEvaluate (compositeScores [⟨0, 1, 0, 0⟩] 3)
        (labelsOf [⟨0, 1, 0, 0⟩]) 2⟩) :=
  ⟨by decide, by decide, C1_apply_mode [⟨0, 1, 0, 0⟩] 100 3 2 (by decide) (by decide)⟩

/-- Counterexample to claim C2: on the 3-entity chain `a→b→c` (entities
0, 1, 2) with embeddings at increasing norms, `get_hypernym_ranks(a)` is
not `{b: 1}` (it is `{b: 2}`). -/
theorem C2_counterexample :
    ¬(getHypernymRanks chainGraph chainDist 0 = [(1, 1)] ∧
      (getHypernymAveragePrecision chainGraph chainDist 0).map (fun p => p.1) =
        some 1 ∧
      (evaluateHypernymMeanRankAndAP chainGraph chainDist).2 = some 1) := by
  intro h
  have hr : getHypernymRanks chainGraph chainDist 0 = [(1, 2)] := by
    norm_num [getHypernymRanks, chainGraph, chainDist, chainEmb]
  rw [hr] at h
  simp at h

/-- Claim C2 as amended: on the chain, the single hypernym `b` of `a` is
ranked 2, not 1 — the non-hypernym set `set(entities) - hypernyms`
contains the query entity `a` itself, whose distance 0 to itself is
strictly smaller than `d(a, b)` — so the average precision of `a` is
1/2 and the evaluator returns mean rank 2 and MAP 1/2. -/
theorem C2_rank_includes_self :
    getHypernymRanks chainGraph chainDist 0 = [(1, 2)] ∧
    (getHypernymAveragePrecision chainGraph chainDist 0).map (fun p => p.1) =
      some (1/2) ∧
    evaluateHypernymMeanRankAndAP chainGraph chainDist = (some 2, some (1/2)) := by
  have h0 : getHypernymAveragePrecision chainGraph chainDist 0 = some (1/2, [2]) := by
    norm_num [getHypernymAveragePrecision, getHypernymRanks, chainGraph, chainDist,
      chainEmb, sortAsc, insertAsc, List.range_succ]
  have h1 : getHypernymAveragePrecision chainGraph chainDist 1 = some (1/2, [2]) := by
    norm_num [getHypernymAveragePrecision, getHypernymRanks, chainGraph, chainDist,
      chainEmb, sortAsc, insertAsc, List.range_succ]
  have h2 : getHypernymAveragePrecision chainGraph chainDist 2 = none := by
    norm_num [getHypernymAveragePrecision, getHypernymRanks, chainGraph]
  refine ⟨?_, ?_, ?_⟩
  · norm_num [getHypernymRanks, chainGraph, chainDist, chainEmb]
  · rw [h0]; rfl
  · have hents : chainGraph.entities = [0, 1, 2] := rfl
    rw [evaluateHypernymMeanRankAndAP, hents]
    simp only [List.filterMap_cons, List.filterMap_nil, h0, h1, h2]
    norm_num
    refine ⟨fun h => ?_, fun h => ?_⟩ <;> simp at h

/-- Counterexample to claim C5: a nonempty score matrix whose label
column holds only the single class 1 is not reported as
"cannot compute metrics": apply mode silently returns perfect metrics
(precision = recall = F1 = accuracy = 1). -/
theorem C5_counterexample :
    labelsOf [⟨1, 1, 0, 0⟩] = [1] ∧
    evaluate [⟨1, 1, 0, 0⟩] 100 (some 1) (some 5) =
      .ok (some ⟨1, ⟨some 1, some 1, some 1, some 1, 5⟩⟩) := by
  constructor
  · norm_num [labelsOf]
  · rw [evaluate]
    rw [show (truthy (some 5) && truthy (some 1)) = true by norm_num [truthy]]
    norm_num [compositeScores, compositeScore, labelsOf, thresholdEvaluate, safeDiv]

/-- Counterexample to claim C7: the triplet-mode reassembly performs no
count check.  On `c7mat` (two distinct positives with multiplicity 5
instead of 10) it silently returns an 11-row matrix: the second positive
(distance 200) is dropped and the first positive is paired with all ten
negatives, five of which belong to the dropped positive. -/
theorem C7_counterexample :
    c7mat.length = 20 ∧
    reinterleave c7mat =
      [⟨1, 100, 0, 0⟩, ⟨0, 1, 0, 0⟩, ⟨0, 2, 0, 0⟩, ⟨0, 3, 0, 0⟩, ⟨0, 4, 0, 0⟩,
       ⟨0, 5, 0, 0⟩, ⟨0, 6, 0, 0⟩, ⟨0, 7, 0, 0⟩, ⟨0, 8, 0, 0⟩, ⟨0, 9, 0, 0⟩,
       ⟨0, 10, 0, 0⟩] ∧
    (reinterleave c7mat).length = 11 := by
  refine ⟨by decide, by decide, by decide⟩


/-- Membership in the scanned-threshold list, for arbitrary bounds. -/
theorem mem_threshold_map (s e : ℤ) (gq : ℚ) (q : ℚ) :
    q ∈ (List.range (e - s).toNat).map (fun (i : ℕ) => ((s + (i : ℤ) : ℤ) : ℚ) / gq) ↔
      ∃ i : ℤ, s ≤ i ∧ i < e ∧ q = (i : ℚ) / gq := by
  constructor
  · intro h
    obtain ⟨k, hk, he⟩ := List.mem_map.mp h
    have hk2 : k < (e - s).toNat := List.mem_range.mp hk
    exact ⟨s + (k : ℤ), by omega, by omega, he.symm⟩
  · rintro ⟨i, h1, h2, rfl⟩
    refine List.mem_map.mpr ⟨(i - s).toNat, List.mem_range.mpr (by omega), ?_⟩
    have h3 : s + ((i - s).toNat : ℤ) = i := by omega
    rw [h3]

/-- Claim C8 as amended: the thresholds scanned for a weight are exactly
the multiples `i/granularity` for the integers `i` from the truncation
of `min·granularity` (inclusive) up to the truncation of
`max·granularity` (exclusive) — the upper end is never tried. -/
theorem C8_threshold_membership (mat : List Row) (g : ℤ) (w : ℚ) (q : ℚ) :
    q ∈ thresholdsFor mat g w ↔
      ∃ i : ℤ, pyInt (qmin (compositeScores mat w) * (g : ℚ)) ≤ i ∧
        i < pyInt (qmax (compositeScores mat w) * (g : ℚ)) ∧
        q = (i : ℚ) / (g : ℚ) :=
  mem_threshold_map (pyInt (qmin (compositeScores mat w) * (g : ℚ)))
    (pyInt (qmax (compositeScores mat w) * (g : ℚ))) ((g : ℤ) : ℚ) q

/-- The running best only grows along a candidate scan. -/
theorem le_candMax (cs : List EvalResult) (b : ℚ) : b ≤ candMax cs b := by
  induction cs generalizing b with
  | nil => simp [candMax]
  | cons c cs ih =>
    rw [candMax, List.foldl_cons]
    cases hF : c.metrics.F1 with
    | none => simpa [candMax, hF] using ih b
    | some v =>
      calc b ≤ max b v := le_max_left b v
      _ ≤ cs.foldl (fun m c => match c.metrics.F1 with | some v => max m v | none => m)
            (max b v) := by simpa [candMax, hF] using ih (max b v)

theorem candMax_cons_none (c : EvalResult) (cs : List EvalResult) (b : ℚ)
    (hF : c.metrics.F1 = none) : candMax (c :: cs) b = candMax cs b := by
  simp [candMax, List.foldl_cons, hF]

theorem candMax_cons_some (c : EvalResult) (cs : List EvalResult) (b v : ℚ)
    (hF : c.metrics.F1 = some v) : candMax (c :: cs) b = candMax cs (max b v) := by
  simp [candMax, List.foldl_cons, hF]

/-- The inner threshold fold computes the running maximum F1, the first
candidate attaining it (when it improves on `b`), and whether an update
happened. -/
theorem foldl_scanStep (cs : List EvalResult) (b : ℚ) (acc : Option EvalResult) (u : Bool) :
    cs.foldl scanStep ⟨b, acc, u⟩ =
      ⟨candMax cs b,
        if b < candMax cs b then
          cs.find? (fun c => c.metrics.F1 = some (candMax cs b)) else acc,
        u || decide (b < candMax cs b)⟩ := by
  induction cs generalizing b acc u with
  | nil => simp [candMax]
  | cons c cs ih =>
    rw [List.foldl_cons]
    cases hF : c.metrics.F1 with
    | none =>
      rw [show scanStep ⟨b, acc, u⟩ c = ⟨b, acc, u⟩ by simp [scanStep, hF]]
      rw [ih, candMax_cons_none c cs b hF]
      by_cases hb : b < candMax cs b
      · rw [List.find?_cons_of_neg _ (by simp [hF])]
      · rw [if_neg hb, if_neg hb]
    | some v =>
      by_cases hlt : b < v
      · rw [show scanStep ⟨b, acc, u⟩ c = ⟨v, some c, true⟩ by simp [scanStep, hF, hlt]]
        rw [ih, candMax_cons_some c cs b v hF, max_eq_right hlt.le]
        have hvM : v ≤ candMax cs v := le_candMax cs v
        have hbM : b < candMax cs v := lt_of_lt_of_le hlt hvM
        by_cases hveq : v < candMax cs v
        · rw [if_pos hveq, if_pos hbM,
            List.find?_cons_of_neg _ (by simp [hF]; exact fun h => absurd h (ne_of_lt hveq))]
          simp [hbM, hveq]
        · have hM : candMax cs v = v := le_antisymm (not_lt.mp hveq) hvM
          rw [if_neg hveq, if_pos hbM, hM, List.find?_cons_of_pos _ (by simp [hF])]
          simp [hbM, hlt]
      · rw [show scanStep ⟨b, acc, u⟩ c = ⟨b, acc, u⟩ by simp [scanStep, hF, hlt]]
        rw [ih, candMax_cons_some c cs b v hF, max_eq_left (not_lt.mp hlt)]
        by_cases hb : b < candMax cs b
        · have hvM : v < candMax cs b := lt_of_le_of_lt (not_lt.mp hlt) hb
          rw [if_pos hb, if_pos hb,
            List.find?_cons_of_neg _ (by simp [hF]; exact fun h => absurd h (ne_of_lt hvM))]
        · rw [if_neg hb, if_neg hb]

/-- A stopped search state is left untouched. -/
theorem searchLoop_stopped (mat : List Row) (g : ℤ) (ws : List ℚ) (b : ℚ)
    (acc : Option EvalResult) :
    searchLoop mat g ws ⟨b, acc, false⟩ = ⟨b, acc, false⟩ := by
  cases ws <;> simp [searchLoop]

/-- The imperative weight loop equals the declarative description of the
search given by the spec. -/
theorem searchLoop_eq_specSearch (mat : List Row) (g : ℤ) (ws : List ℚ) :
    ∀ (b : ℚ) (acc : Option EvalResult),
      (searchLoop mat g ws ⟨b, acc, true⟩).best = specSearch mat g ws b acc := by
  induction ws with
  | nil => intro b acc; simp [searchLoop, specSearch]
  | cons w ws ih =>
    intro b acc
    rw [show searchLoop mat g (w :: ws) ⟨b, acc, true⟩ =
        searchLoop mat g ws (scanWeight mat g ⟨b, acc, true⟩ w) from rfl]
    rw [show scanWeight mat g ⟨b, acc, true⟩ w =
        (candidatesFor mat g w).foldl scanStep ⟨b, acc, false⟩ from rfl]
    rw [foldl_scanStep, Bool.false_or]
    by_cases hb : b < candMax (candidatesFor mat g w) b
    · rw [show (decide (b < candMax (candidatesFor mat g w) b)) = true from decide_eq_true hb]
      rw [if_pos hb, ih, specSearch, if_pos hb]
    · rw [show (decide (b < candMax (candidatesFor mat g w) b)) = false from
        decide_eq_false hb]
      rw [if_neg hb, searchLoop_stopped, specSearch, if_neg hb]

/-- Claim C4: in search mode the evaluator grid-searches the
centripetal weights 1..10 in increasing order, stops at the first
weight whose entire threshold scan brings no improvement over the best
F1 seen so far, and among equal-F1 candidates keeps the first found
(lowest weight, then lowest threshold — `specSearch` takes, per weight,
the first candidate of the ascending scan attaining the weight's best
F1, and only when that strictly improves the running best). -/
theorem C4_search_mode (mat : List Row) (g : ℤ) (h : mat ≠ []) :
    evaluate mat g none none = .ok (specSearch mat g specWeightList (-1) none) := by
  rw [evaluate]
  rw [show (truthy none && truthy none) = false from rfl]
  simp only [Bool.false_eq_true, if_false, if_neg h]
  rw [show weightList = specWeightList by
    norm_num [weightList, specWeightList, List.range_succ]]
  rw [searchLoop_eq_specSearch]

/-- Witness for C4 on a concrete matrix. -/
theorem C4_search_mode_witness :
    ([⟨1, 1, 0, 0⟩, ⟨0, 3, 0, 0⟩] : List Row) ≠ [] ∧
    evaluate [⟨1, 1, 0, 0⟩, ⟨0, 3, 0, 0⟩] 1 none none =
      .ok (specSearch [⟨1, 1, 0, 0⟩, ⟨0, 3, 0, 0⟩] 1 specWeightList (-1) none) :=
  ⟨by simp, C4_search_mode [⟨1, 1, 0, 0⟩, ⟨0, 3, 0, 0⟩] 1 (by simp)⟩


/-- Counterexample to claim C8: on the matrix `[(1,0,0,0), (0,1,0,0)]`
with granularity 2 and weight 1 the composite scores span `[0, 1]`, yet
only `[0, 1/2]` are scanned: the maximum 1 — a multiple of
1/granularity lying between the minimum and the maximum (inclusive per
the claim) — is never tried, because Python `range` excludes its upper
end. -/
theorem C8_counterexample :
    compositeScores [⟨1, 0, 0, 0⟩, ⟨0, 1, 0, 0⟩] 1 = [0, 1] ∧
    qmin (compositeScores [⟨1, 0, 0, 0⟩, ⟨0, 1, 0, 0⟩] 1) = 0 ∧
    qmax (compositeScores [⟨1, 0, 0, 0⟩, ⟨0, 1, 0, 0⟩] 1) = 1 ∧
    ((2 : ℤ) : ℚ) / ((2 : ℤ) : ℚ) = 1 ∧
    thresholdsFor [⟨1, 0, 0, 0⟩, ⟨0, 1, 0, 0⟩] 2 1 = [0, 1/2] ∧
    (1 : ℚ) ∉ thresholdsFor [⟨1, 0, 0, 0⟩, ⟨0, 1, 0, 0⟩] 2 1 := by
  have hs : compositeScores [⟨1, 0, 0, 0⟩, ⟨0, 1, 0, 0⟩] 1 = [0, 1] := by
    norm_num [compositeScores, compositeScore]
  have ht : thresholdsFor [⟨1, 0, 0, 0⟩, ⟨0, 1, 0, 0⟩] 2 1 = [0, 1/2] := by
    rw [thresholdsFor, hs]
    norm_num [qmin, qmax, pyInt]
    rw [show Int.toNat 2 = 2 from rfl]
    norm_num [List.range_succ]
  refine ⟨hs, by rw [hs]; norm_num [qmin], by rw [hs]; norm_num [qmax], by norm_num,
    ht, by rw [ht]; norm_num⟩


/-- `threshold_evaluate` on a nonempty all-positive, all-classified-
positive input returns perfect metrics. -/
theorem thresholdEvaluate_all_positive (scores labels : List ℚ) (t : ℚ)
    (hlen : labels.length = scores.length) (hne : scores ≠ [])
    (hl : ∀ l ∈ labels, l = 1) (hs : ∀ s ∈ scores, s ≤ t) :
    thresholdEvaluate scores labels t = ⟨some 1, some 1, some 1, some 1, t⟩ := by
  have hzlen : (scores.zip labels).length = scores.length := by
    rw [List.length_zip, hlen, min_self]
  have hmem : ∀ p ∈ scores.zip labels, p.1 ≤ t ∧ p.2 = 1 := by
    intro p hp
    have h12 := List.of_mem_zip (a := p.1) (b := p.2) (by simpa using hp)
    exact ⟨hs p.1 h12.1, hl p.2 h12.2⟩
  have htp : (scores.zip labels).filter
      (fun p => decide (p.1 ≤ t) && decide (p.2 = 1)) = scores.zip labels := by
    rw [List.filter_eq_self]
    intro p hp
    simp [(hmem p hp).1, (hmem p hp).2]
  have hfp : (scores.zip labels).filter
      (fun p => decide (p.1 ≤ t) && !(decide (p.2 = 1))) = [] := by
    rw [List.filter_eq_nil_iff]
    intro p hp
    simp [(hmem p hp).2]
  have hfn : (scores.zip labels).filter
      (fun p => !(decide (p.1 ≤ t)) && decide (p.2 = 1)) = [] := by
    rw [List.filter_eq_nil_iff]
    intro p hp
    simp [(hmem p hp).1]
  have htn : (scores.zip labels).filter
      (fun p => !(decide (p.1 ≤ t)) && !(decide (p.2 = 1))) = [] := by
    rw [List.filter_eq_nil_iff]
    intro p hp
    simp [(hmem p hp).1]
  have hn : scores.length ≠ 0 := by
    intro h
    exact hne (List.length_eq_zero.mp h)
  have hnq : ((scores.length : ℚ)) ≠ 0 := Nat.cast_ne_zero.mpr hn
  rw [thresholdEvaluate]
  simp only [htp, hfp, hfn, htn, List.length_nil, hzlen]
  rw [show scores.length + 0 = scores.length from rfl]
  simp only [safeDiv, if_neg hn, div_self hnq]
  norm_num

/-- Claim C5 as amended: a nonempty single-class (all label 1) matrix is
not reported as degenerate — whenever the supplied nonzero threshold
dominates all composite scores, apply mode silently returns the perfect
metrics record. -/
theorem C5_single_label (mat : List Row) (g : ℤ) (w t : ℚ)
    (hne : mat ≠ []) (hlab : ∀ r ∈ mat, r.label = 1) (hw : w ≠ 0) (ht : t ≠ 0)
    (hsc : ∀ r ∈ mat, compositeScore r w ≤ t) :
    evaluate mat g (some w) (some t) =
      .ok (some ⟨w, ⟨some 1, some 1, some 1, some 1, t⟩⟩) := by
  have happly : evaluate mat g (some w) (some t) =
      .ok (some ⟨w, thresholdEvaluate (compositeScores mat w) (labelsOf mat) t⟩) := by
    simp [evaluate, truthy, hw, ht]
  rw [happly, thresholdEvaluate_all_positive]
  · rw [labelsOf, compositeScores, List.length_map, List.length_map]
  · intro h
    exact hne (by simpa [compositeScores] using congrArg List.length h)
  · intro l hl
    obtain ⟨r, hr, rfl⟩ := List.mem_map.mp hl
    exact hlab r hr
  · intro s hsm
    obtain ⟨r, hr, rfl⟩ := List.mem_map.mp hsm
    exact hsc r hr

/-- Witness for C5 as amended. -/
theorem C5_single_label_witness :
    ([⟨1, 1, 0, 0⟩, ⟨1, 2, 0, 0⟩] : List Row) ≠ [] ∧
    (∀ r ∈ ([⟨1, 1, 0, 0⟩, ⟨1, 2, 0, 0⟩] : List Row), r.label = 1) ∧
    (1 : ℚ) ≠ 0 ∧ (3 : ℚ) ≠ 0 ∧
    (∀ r ∈ ([⟨1, 1, 0, 0⟩, ⟨1, 2, 0, 0⟩] : List Row), compositeScore r 1 ≤ 3) ∧
    evaluate [⟨1, 1, 0, 0⟩, ⟨1, 2, 0, 0⟩] 100 (some 1) (some 3) =
      .ok (some ⟨1, ⟨some 1, some 1, some 1, some 1, 3⟩⟩) :=
  ⟨by simp, by intro r hr; fin_cases hr <;> rfl, by norm_num, by norm_num,
   by intro r hr; fin_cases hr <;> norm_num [compositeScore],
   C5_single_label [⟨1, 1, 0, 0⟩, ⟨1, 2, 0, 0⟩] 100 1 3 (by simp)
     (by intro r hr; fin_cases hr <;> rfl) (by norm_num) (by norm_num)
     (by intro r hr; fin_cases hr <;> norm_num [compositeScore])⟩

/-- The indexed reassembly loop in structural form. -/
theorem flatMap_assemble (pos : List Row) :
    ∀ neg : List Row,
      (List.range pos.length).flatMap
        (fun i => pos.getD i row0 :: ((neg.drop (10 * i)).take 10)) = assemble pos neg := by
  induction pos with
  | nil => intro neg; simp [assemble]
  | cons p ps ih =>
    intro neg
    rw [List.length_cons, List.range_succ_eq_map, List.flatMap_cons, List.flatMap_map]
    have hbody : (fun i : ℕ =>
        (p :: ps).getD (Nat.succ i) row0 :: ((neg.drop (10 * Nat.succ i)).take 10)) =
        (fun i : ℕ => ps.getD i row0 :: (((neg.drop 10).drop (10 * i)).take 10)) := by
      funext i
      rw [List.getD_cons_succ, show 10 * Nat.succ i = 10 * i + 10 from by omega]
      simp [List.drop_drop, Nat.add_comm]
    rw [hbody, ih (neg.drop 10)]
    simp [assemble]

/-- Length of the structural reassembly: negatives are attached in
slices of ten, silently truncated when they run short. -/
theorem assemble_length (pos : List Row) :
    ∀ neg : List Row,
      (assemble pos neg).length = pos.length + min (10 * pos.length) neg.length := by
  induction pos with
  | nil => intro neg; simp [assemble]
  | cons p ps ih =>
    intro neg
    simp only [assemble, List.length_append, List.length_cons, List.length_take,
      ih (neg.drop 10), List.length_drop]
    omega

/-- Claim C7 as amended: the reassembly never rejects — for every
result matrix it totals `p + min(10·p, #negatives)` rows, where `p` is
the number of kept (every 10th) positive rows; a wrong multiplicity is
silently truncated/misaligned instead of raising a count mismatch. -/
theorem C7_no_count_check (mat : List Row) :
    (reinterleave mat).length =
      (stride10 (mat.filter (fun r => decide (r.label = 1)))).length +
        min (10 * (stride10 (mat.filter (fun r => decide (r.label = 1)))).length)
          (mat.filter (fun r => decide (r.label = 0))).length := by
  have h := flatMap_assemble (stride10 (mat.filter (fun r => decide (r.label = 1))))
    (mat.filter (fun r => decide (r.label = 0)))
  rw [show reinterleave mat =
      (List.range (stride10 (mat.filter (fun r => decide (r.label = 1)))).length).flatMap
        (fun i => (stride10 (mat.filter (fun r => decide (r.label = 1)))).getD i row0 ::
          (((mat.filter (fun r => decide (r.label = 0))).drop (10 * i)).take 10)) from rfl]
  rw [h, assemble_length]


open FltOp

theorem fadd_none_right (x : Flt) : fadd x none = none := by cases x <;> rfl

theorem fadd_none_left (x : Flt) : fadd none x = none := rfl

theorem fmul_none_right (x : Flt) : fmul x none = none := by cases x <;> rfl

theorem fdiv_some_zero (x : Flt) : fdiv x (some 0) = none := by
  cases x <;> simp [fdiv]

theorem fdiv_fmul_zero (x y : Flt) : fdiv x (fmul (lit 0) y) = none := by
  cases x <;> cases y <;> simp [fdiv, fmul, lit]

/-- Claim C10: on a nonempty batch whose labels are all 0, the
centripetal term divides by `labels.float().sum() = 0`; the resulting
NaN propagates through the weighted sum, so `forward` returns NaN
whenever the centripetal weight is nonzero. -/
theorem C10_all_negative_nan (c : ℝ) (W : LossWeights)
    (repAnchor repOther : List Vec) (labels : List ℝ)
    (hne : labels ≠ []) (hl : ∀ l ∈ labels, l = 0) (hw : W.centri ≠ 0) :
    hyperbolicForward c W repAnchor repOther labels = none := by
  have hsum : labels.sum = 0 := List.sum_eq_zero hl
  simp only [hyperbolicForward, hsum]
  rw [show lit (0 : ℝ) = some 0 from rfl, fdiv_some_zero, fmul_none_right,
    fadd_none_right, fadd_none_left]

/-- Witness for C10. -/
theorem C10_all_negative_nan_witness :
    ([(0 : ℝ), 0] ≠ []) ∧ (∀ l ∈ [(0 : ℝ), 0], l = 0) ∧ (1 : ℝ) ≠ 0 ∧
    hyperbolicForward 1 ⟨1, 1, 1⟩ [[(1/2 : ℝ), 0], [(1/4 : ℝ), 0]]
      [[(1/3 : ℝ), 0], [(1/5 : ℝ), 0]] [0, 0] = none :=
  ⟨by simp, by simp, by norm_num,
    C10_all_negative_nan 1 ⟨1, 1, 1⟩ _ _ [0, 0] (by simp) (by simp) (by norm_num)⟩

/-! Pointwise evaluation helpers for two-dimensional vectors. -/

theorem sqnorm_pair (x y : ℝ) : sqnorm [x, y] = x * x + y * y := by
  simp [sqnorm, dot]

theorem dot_pair (a b c d : ℝ) : dot [a, b] [c, d] = a * c + b * d := by
  simp [dot]

theorem vnorm_pair (x y r : ℝ) (hr : 0 ≤ r) (h : x * x + y * y = r ^ 2) :
    vnorm [x, y] = r := by
  rw [vnorm, sqnorm_pair, h, Real.sqrt_sq hr]

/-- The cone angle is a defined real number whenever the square root
argument is nonnegative, the denominator is nonzero and the ratio lies
in the `arccos` domain: no other failure mode exists in the code. -/
theorem coneAngleAtU_defined (coneTip u : Vec)
    (h0 : 0 ≤ coneSqrtArg coneTip u)
    (hden : vnorm coneTip * vnorm (vsub coneTip u) *
      Real.sqrt (coneSqrtArg coneTip u) ≠ 0)
    (hlo : -1 ≤ coneNumerator coneTip u /
      (vnorm coneTip * vnorm (vsub coneTip u) * Real.sqrt (coneSqrtArg coneTip u)))
    (hhi : coneNumerator coneTip u /
      (vnorm coneTip * vnorm (vsub coneTip u) * Real.sqrt (coneSqrtArg coneTip u)) ≤ 1) :
    coneAngleAtU coneTip u = some (Real.arccos (coneNumerator coneTip u /
      (vnorm coneTip * vnorm (vsub coneTip u) * Real.sqrt (coneSqrtArg coneTip u)))) := by
  rw [coneAngleAtU]
  rw [show fsqrt (lit (coneSqrtArg coneTip u)) =
      some (Real.sqrt (coneSqrtArg coneTip u)) from by simp [fsqrt, lit, h0]]
  rw [show fmul (lit (vnorm coneTip * vnorm (vsub coneTip u)))
      (some (Real.sqrt (coneSqrtArg coneTip u))) =
      some (vnorm coneTip * vnorm (vsub coneTip u) *
        Real.sqrt (coneSqrtArg coneTip u)) from rfl]
  rw [show fdiv (lit (coneNumerator coneTip u))
      (some (vnorm coneTip * vnorm (vsub coneTip u) *
        Real.sqrt (coneSqrtArg coneTip u))) =
      some (coneNumerator coneTip u /
        (vnorm coneTip * vnorm (vsub coneTip u) *
          Real.sqrt (coneSqrtArg coneTip u))) from by simp [fdiv, lit, hden]]
  simp [farccos, hlo, hhi]

/-- Counterexample to claim C9: the argument of `arccos` is not clamped,
and the computed angle is not defined for every pair of in-ball inputs:
at `tip = point = (1/2, 0)` (inside the unit ball) the ratio is `0/0`
(the Euclidean distance factor of the denominator vanishes) and
`cone_angle_at_u` is NaN.  (A clamp of the ratio would not repair this
point either; the claim's "for every pair ... well defined" is false.) -/
theorem C9_counterexample :
    sqnorm [(1/2 : ℝ), 0] < 1 ∧
    coneAngleAtU [(1/2 : ℝ), 0] [(1/2 : ℝ), 0] = none := by
  constructor
  · rw [sqnorm_pair]; norm_num
  · have hsub : vsub [(1/2 : ℝ), 0] [(1/2 : ℝ), 0] = [0, 0] := by
      norm_num [vsub]
    have hnorm0 : vnorm [(0 : ℝ), 0] = 0 :=
      vnorm_pair 0 0 0 le_rfl (by norm_num)
    rw [coneAngleAtU, hsub, hnorm0, mul_zero]
    rw [fdiv_fmul_zero]
    rfl

/-- Claim C9 as amended: `cone_angle_at_u` passes the ratio to `arccos`
unclamped; the angle is a defined real number whenever the square-root
argument is nonnegative, the denominator is nonzero and the ratio lies
in `[-1, 1]` — and is NaN otherwise, in particular at `tip = point`. -/
theorem C9_no_clamp (coneTip u : Vec)
    (h0 : 0 ≤ coneSqrtArg coneTip u)
    (hden : vnorm coneTip * vnorm (vsub coneTip u) *
      Real.sqrt (coneSqrtArg coneTip u) ≠ 0)
    (hlo : -1 ≤ coneNumerator coneTip u /
      (vnorm coneTip * vnorm (vsub coneTip u) * Real.sqrt (coneSqrtArg coneTip u)))
    (hhi : coneNumerator coneTip u /
      (vnorm coneTip * vnorm (vsub coneTip u) * Real.sqrt (coneSqrtArg coneTip u)) ≤ 1) :
    coneAngleAtU coneTip u = some (Real.arccos (coneNumerator coneTip u /
      (vnorm coneTip * vnorm (vsub coneTip u) * Real.sqrt (coneSqrtArg coneTip u)))) :=
  coneAngleAtU_defined coneTip u h0 hden hlo hhi


/-- Witness for C9 as amended, at `tip = (1/2, 0)`, `u = (-1/2, 0)`:
the ratio is exactly −1 and the angle is `arccos(−1)`. -/
theorem C9_no_clamp_witness :
    (0 : ℝ) ≤ coneSqrtArg [(1/2 : ℝ), 0] [-(1/2 : ℝ), 0] ∧
    vnorm [(1/2 : ℝ), 0] * vnorm (vsub [(1/2 : ℝ), 0] [-(1/2 : ℝ), 0]) *
      Real.sqrt (coneSqrtArg [(1/2 : ℝ), 0] [-(1/2 : ℝ), 0]) ≠ 0 ∧
    -1 ≤ coneNumerator [(1/2 : ℝ), 0] [-(1/2 : ℝ), 0] /
      (vnorm [(1/2 : ℝ), 0] * vnorm (vsub [(1/2 : ℝ), 0] [-(1/2 : ℝ), 0]) *
        Real.sqrt (coneSqrtArg [(1/2 : ℝ), 0] [-(1/2 : ℝ), 0])) ∧
    coneNumerator [(1/2 : ℝ), 0] [-(1/2 : ℝ), 0] /
      (vnorm [(1/2 : ℝ), 0] * vnorm (vsub [(1/2 : ℝ), 0] [-(1/2 : ℝ), 0]) *
        Real.sqrt (coneSqrtArg [(1/2 : ℝ), 0] [-(1/2 : ℝ), 0])) ≤ 1 ∧
    coneAngleAtU [(1/2 : ℝ), 0] [-(1/2 : ℝ), 0] =
      some (Real.arccos (coneNumerator [(1/2 : ℝ), 0] [-(1/2 : ℝ), 0] /
        (vnorm [(1/2 : ℝ), 0] * vnorm (vsub [(1/2 : ℝ), 0] [-(1/2 : ℝ), 0]) *
          Real.sqrt (coneSqrtArg [(1/2 : ℝ), 0] [-(1/2 : ℝ), 0])))) := by
  have hva : vnorm [-(1/2 : ℝ), 0] = 1/2 := vnorm_pair _ _ _ (by norm_num) (by norm_num)
  have hvb : vnorm [(1/2 : ℝ), 0] = 1/2 := vnorm_pair _ _ _ (by norm_num) (by norm_num)
  have hvsub : vsub [(1/2 : ℝ), 0] [-(1/2 : ℝ), 0] = [(1 : ℝ), 0] := by norm_num [vsub]
  have hv1 : vnorm [(1 : ℝ), 0] = 1 := vnorm_pair _ _ _ (by norm_num) (by norm_num)
  have hsarg : coneSqrtArg [(1/2 : ℝ), 0] [-(1/2 : ℝ), 0] = 25/16 := by
    rw [coneSqrtArg, hva, hvb, dot_pair]; norm_num
  have hsqrt : Real.sqrt ((25 : ℝ)/16) = 5/4 := by
    rw [show ((25 : ℝ)/16) = (5/4)^2 by norm_num, Real.sqrt_sq (by norm_num)]
  have hnum : coneNumerator [(1/2 : ℝ), 0] [-(1/2 : ℝ), 0] = -(5/8) := by
    rw [coneNumerator, hva, hvb, dot_pair]; norm_num
  have hdenv : vnorm [(1/2 : ℝ), 0] * vnorm (vsub [(1/2 : ℝ), 0] [-(1/2 : ℝ), 0]) *
      Real.sqrt (coneSqrtArg [(1/2 : ℝ), 0] [-(1/2 : ℝ), 0]) = 5/8 := by
    rw [hvb, hvsub, hv1, hsarg, hsqrt]; norm_num
  have h0 : (0 : ℝ) ≤ coneSqrtArg [(1/2 : ℝ), 0] [-(1/2 : ℝ), 0] := by
    rw [hsarg]; norm_num
  have hden : vnorm [(1/2 : ℝ), 0] * vnorm (vsub [(1/2 : ℝ), 0] [-(1/2 : ℝ), 0]) *
      Real.sqrt (coneSqrtArg [(1/2 : ℝ), 0] [-(1/2 : ℝ), 0]) ≠ 0 := by
    rw [hdenv]; norm_num
  have hlo : -1 ≤ coneNumerator [(1/2 : ℝ), 0] [-(1/2 : ℝ), 0] /
      (vnorm [(1/2 : ℝ), 0] * vnorm (vsub [(1/2 : ℝ), 0] [-(1/2 : ℝ), 0]) *
        Real.sqrt (coneSqrtArg [(1/2 : ℝ), 0] [-(1/2 : ℝ), 0])) := by
    rw [hnum, hdenv]; norm_num
  have hhi : coneNumerator [(1/2 : ℝ), 0] [-(1/2 : ℝ), 0] /
      (vnorm [(1/2 : ℝ), 0] * vnorm (vsub [(1/2 : ℝ), 0] [-(1/2 : ℝ), 0]) *
        Real.sqrt (coneSqrtArg [(1/2 : ℝ), 0] [-(1/2 : ℝ), 0])) ≤ 1 := by
    rw [hnum, hdenv]; norm_num
  exact ⟨h0, hden, hlo, hhi, C9_no_clamp _ _ h0 hden hlo hhi⟩

/-- `forward` on the batch of the single pair
`anchor = (-1/2, 0)`, `other = (1/2, 0)` with an arbitrary nonzero real
label computes an ordinary numeric loss — no validation of the label
occurs (the zero label is excluded only because it makes the
centripetal denominator `labels.sum()` zero, an orthogonal NaN). -/
theorem forward_nonzero_label_isSome (l : ℝ) (hl : l ≠ 0) :
    (hyperbolicForward 1 ⟨1, 1, 1⟩ [[-(1/2 : ℝ), 0]] [[(1/2 : ℝ), 0]] [l]).isSome = true := by
  have hva : vnorm [-(1/2 : ℝ), 0] = 1/2 := vnorm_pair _ _ _ (by norm_num) (by norm_num)
  have hvb : vnorm [(1/2 : ℝ), 0] = 1/2 := vnorm_pair _ _ _ (by norm_num) (by norm_num)
  have hnega : vneg [-(1/2 : ℝ), 0] = [(1/2 : ℝ), 0] := by norm_num [vneg]
  have hnegb : vneg [(1/2 : ℝ), 0] = [-(1/2 : ℝ), 0] := by norm_num [vneg]
  have hmob : mobiusAdd 1 [(1/2 : ℝ), 0] [(1/2 : ℝ), 0] = some [(4/5 : ℝ), 0] := by
    simp only [mobiusAdd, dot_pair, sqnorm_pair]
    norm_num [vadd, smul]
  have hmoba0 : mobiusAdd 1 [(1/2 : ℝ), 0] [(0 : ℝ), 0] = some [(1/2 : ℝ), 0] := by
    simp only [mobiusAdd, dot_pair, sqnorm_pair]
    norm_num [vadd, smul]
  have hmobb0 : mobiusAdd 1 [-(1/2 : ℝ), 0] [(0 : ℝ), 0] = some [-(1/2 : ℝ), 0] := by
    simp only [mobiusAdd, dot_pair, sqnorm_pair]
    norm_num [vadd, smul]
  have hw45 : vnorm [(4/5 : ℝ), 0] = 4/5 := vnorm_pair _ _ _ (by norm_num) (by norm_num)
  have hdab : pdist 1 [-(1/2 : ℝ), 0] [(1/2 : ℝ), 0] = some (2 * artanh (4/5)) := by
    rw [pdist, hnega, hmob, Real.sqrt_one]
    norm_num [fartanh, fmul, lit, hw45]
  have hz : zeros 2 = [(0 : ℝ), 0] := rfl
  have hda0 : pdist 1 [-(1/2 : ℝ), 0] (zeros 2) = some (2 * artanh (1/2)) := by
    rw [pdist, hz, hnega, hmoba0, Real.sqrt_one]
    norm_num [fartanh, fmul, lit, hvb]
  have hdb0 : pdist 1 [(1/2 : ℝ), 0] (zeros 2) = some (2 * artanh (1/2)) := by
    rw [pdist, hz, hnegb, hmobb0, Real.sqrt_one]
    norm_num [fartanh, fmul, lit, hva]
  have hvsub : vsub [(1/2 : ℝ), 0] [-(1/2 : ℝ), 0] = [(1 : ℝ), 0] := by norm_num [vsub]
  have hv1 : vnorm [(1 : ℝ), 0] = 1 := vnorm_pair _ _ _ (by norm_num) (by norm_num)
  have hsarg : coneSqrtArg [(1/2 : ℝ), 0] [-(1/2 : ℝ), 0] = 25/16 := by
    rw [coneSqrtArg, hva, hvb, dot_pair]; norm_num
  have hsqrt : Real.sqrt ((25 : ℝ)/16) = 5/4 := by
    rw [show ((25 : ℝ)/16) = (5/4)^2 by norm_num, Real.sqrt_sq (by norm_num)]
  have hnum : coneNumerator [(1/2 : ℝ), 0] [-(1/2 : ℝ), 0] = -(5/8) := by
    rw [coneNumerator, hva, hvb, dot_pair]; norm_num
  have hdenv : vnorm [(1/2 : ℝ), 0] * vnorm (vsub [(1/2 : ℝ), 0] [-(1/2 : ℝ), 0]) *
      Real.sqrt (coneSqrtArg [(1/2 : ℝ), 0] [-(1/2 : ℝ), 0]) = 5/8 := by
    rw [hvb, hvsub, hv1, hsarg, hsqrt]; norm_num
  have hangle : coneAngleAtU [(1/2 : ℝ), 0] [-(1/2 : ℝ), 0] = some (Real.arccos (-1)) := by
    rw [coneAngleAtU_defined _ _ (by rw [hsarg]; norm_num) (by rw [hdenv]; norm_num)
      (by rw [hnum, hdenv]; norm_num) (by rw [hnum, hdenv]; norm_num)]
    rw [hnum, hdenv]; norm_num
  have hhalf : halfConeAperture [(1/2 : ℝ), 0] = some (Real.arcsin (3/20)) := by
    simp only [halfConeAperture, hvb]
    rw [show max ((1 : ℝ)/2) (1/10) = 1/2 by norm_num]
    rw [show (1 : ℝ)/10 * (1 - (1/2) ^ 2) / (1/2) = 3/20 by norm_num]
    norm_num [farcsin, lit]
  have henergy : energy [(1/2 : ℝ), 0] [-(1/2 : ℝ), 0] =
      some (max 0 (Real.arccos (-1) - Real.arcsin (3/20))) := by
    rw [energy, hangle, hhalf]; rfl
  simp only [hyperbolicForward, List.zip_cons_cons, List.zip_nil_right,
    List.zipWith_cons_cons, List.zipWith_nil_right, List.length_cons, List.length_nil,
    List.sum_cons, List.sum_nil]
  norm_num [hdab, hda0, hdb0, henergy, fsum, fsq, frelu, fsub, fadd, fmul, fdiv,
    lit, List.foldl, hl]

/-- Claim C6 as amended: `forward` performs no input validation beyond
`assert len(reps) == 2` — an arbitrary nonzero real label (binary or
not) flows straight into the loss arithmetic and yields an ordinary
numeric loss value. -/
theorem C6_no_label_validation (l : ℝ) (hl : l ≠ 0) :
    (hyperbolicForward 1 ⟨1, 1, 1⟩ [[-(1/2 : ℝ), 0]] [[(1/2 : ℝ), 0]] [l]).isSome = true :=
  forward_nonzero_label_isSome l hl

/-- Counterexample to claim C6: the label −3 is neither 0 nor 1, yet
`forward` does not reject the batch or report invalid input — it
returns an ordinary numeric loss (`isSome`, not even NaN). -/
theorem C6_counterexample :
    (-3 : ℝ) ≠ 0 ∧ (-3 : ℝ) ≠ 1 ∧
    (hyperbolicForward 1 ⟨1, 1, 1⟩ [[-(1/2 : ℝ), 0]] [[(1/2 : ℝ), 0]] [-3]).isSome = true :=
  ⟨by norm_num, by norm_num, forward_nonzero_label_isSome (-3) (by norm_num)⟩

/-- Witness for C6 as amended. -/
theorem C6_no_label_validation_witness :
    (2 : ℝ) ≠ 0 ∧
    (hyperbolicForward 1 ⟨1, 1, 1⟩ [[-(1/2 : ℝ), 0]] [[(1/2 : ℝ), 0]] [2]).isSome = true :=
  ⟨by norm_num, C6_no_label_validation 2 (by norm_num)⟩

end HiT
